import Mathlib

/-!
Verification of the findDuplicates repository against its natural-language
specification.  The Python sources are shallowly embedded: file names and
paths are lists of characters, the filesystem walk is an explicit list of
walk entries, `os.path.getsize` failures are modelled by an `Option`, and
every stateful loop becomes a fold over an explicit state record.
-/

namespace FindDup

/-! ## Directory scanner (scanDirectory.py, class ScanDirectory) -/

/-- Embedding of the extension part of CPython `os.path.splitext` for a bare
file name (no directory separators): the extension starts at the last dot,
provided at least one character strictly before that dot is not itself a dot
(so names consisting only of leading dots, such as `.bashrc`, have no
extension). -/
def lastDotIdx (cs : List Char) : Option Nat :=
  match cs.reverse.findIdx? (fun c => c == '.') with
  | some j => some (cs.length - 1 - j)
  | none => none

/-- The extension (including the leading dot) that `os.path.splitext` returns
for a bare file name. -/
def splitext_ext (cs : List Char) : List Char :=
  match lastDotIdx cs with
  | none => []
  | some i => if (cs.take i).any (fun c => !(c == '.')) then cs.drop i else []

/-- The pattern key the scanner computes at scanDirectory.py lines 118-119:
`ext = os.path.splitext(file_name)[1]` followed by `ext.upper().lstrip(".")`.
Python `str.lstrip(".")` removes every leading dot. -/
def pattern_key (name : List Char) : List Char :=
  ((splitext_ext name).map Char.toUpper).dropWhile (fun c => c == '.')

/-- The scan-relevant constructor arguments of `ScanDirectory`
(scanDirectory.py, `__init__`).  `patterns` is `Option`al because the Python
default is `None` and the pattern filter tests `self.patterns is not None`. -/
structure ScanConfig where
  skip_hidden : Bool
  skip_dsstore : Bool
  limit_to_patterns : Bool
  patterns : Option (List (List Char))
  skip_zero_len : Bool
  type_is_source : Bool
deriving DecidableEq, Repr

/-- One file yielded by `os.walk`: the directory it sits in, its bare name,
and the result of `os.path.getsize` on its joined path (`none` models the
`FileNotFoundError` branch at scanDirectory.py lines 129-137). -/
structure WalkEntry where
  root : List Char
  name : List Char
  size : Option Nat
deriving DecidableEq, Repr

/-- Embedding of `os.path.join(root, file_name)` for a relative name. -/
def joinPath (root name : List Char) : List Char :=
  root ++ ('/' :: name)

/-- The mutable state of one `ScanDirectory.scan` run: the two loop counters,
and `self.items` split into its two mutually exclusive uses (keyed by path in
source mode, keyed by size in target mode; the Python object holds both
shapes in one dict whose key type depends on `type_is_source`).
`errors_log` stands for the errors-log collaborator of the program: the scan
loop holds no reference to it and never writes it (the source marks this with
a TODO, scanDirectory.py lines 132-133). -/
structure ScanState where
  checked_counter : Nat
  actual_counter : Nat
  byPath : List (List Char × (List Char × Nat))
  bySize : List (Nat × List (List Char × Nat))
  errors_log : List (List Char)
deriving DecidableEq, Repr

/-- Python dict assignment `d[k] = v` on an insertion-ordered association
list: replace in place when the key exists, append otherwise. -/
def dictInsert (m : List (List Char × (List Char × Nat))) (k : List Char)
    (v : List Char × Nat) : List (List Char × (List Char × Nat)) :=
  match m with
  | [] => [(k, v)]
  | (k', v') :: rest =>
    if k' == k then (k, v) :: rest else (k', v') :: dictInsert rest k v

/-- The target-mode insertion at scanDirectory.py lines 160-182: create the
bucket `[(path, size)]` on the first occurrence of `size`, otherwise append
`(path, size)` to the existing bucket. -/
def bucketAppend (m : List (Nat × List (List Char × Nat))) (sz : Nat)
    (p : List Char) : List (Nat × List (List Char × Nat)) :=
  match m with
  | [] => [(sz, [(p, sz)])]
  | (s, b) :: rest =>
    if s == sz then (s, b ++ [(p, sz)]) :: rest
    else (s, b) :: bucketAppend rest sz p

/-- The body of the per-file loop of `ScanDirectory.scan` (scanDirectory.py
lines 83-182), with the purely observational status printing and debug
messages dropped.  The filter chain runs in source order: hidden names,
`.DS_Store`, extension patterns (active only when `limit_to_patterns` holds
and `patterns` is not `None`), unreadable size, zero length; the first
exclusion wins and only `checked_counter` advances. -/
def scan_step (cfg : ScanConfig) (st0 : ScanState) (e : WalkEntry) : ScanState :=
  let st := { st0 with checked_counter := st0.checked_counter + 1 }
  if cfg.skip_hidden && e.name.head? == some '.' then st
  else if cfg.skip_dsstore && e.name == ".DS_Store".toList then st
  else if cfg.limit_to_patterns && cfg.patterns.isSome
      && !((cfg.patterns.getD []).contains (pattern_key e.name)) then st
  else
    match e.size with
    | none => st
    | some sz =>
      if cfg.skip_zero_len && decide (sz < 1) then st
      else
        let st' := { st with actual_counter := st.actual_counter + 1 }
        if cfg.type_is_source then
          { st' with byPath := dictInsert st'.byPath (joinPath e.root e.name) (e.name, sz) }
        else
          { st' with bySize := bucketAppend st'.bySize sz (joinPath e.root e.name) }

/-- The whole `ScanDirectory.scan` loop over the walk, starting from the
freshly constructed object (`file_count = 0`, `items = dict()`). -/
def scan (cfg : ScanConfig) (entries : List WalkEntry) : ScanState :=
  entries.foldl (scan_step cfg) ⟨0, 0, [], [], []⟩

/-- `ScanDirectory.get_count` after a completed scan: `self.file_count` is
assigned from `actual_counter` when the loop finishes. -/
def ScanState.get_count (st : ScanState) : Nat :=
  st.actual_counter

/-- The per-file accept decision factored out of `scan_step`: `none` when the
file is excluded by a filter (or its size is unreadable), `some size` when it
is accepted into the index. -/
def fileAccepted (cfg : ScanConfig) (e : WalkEntry) : Option Nat :=
  if cfg.skip_hidden && e.name.head? == some '.' then none
  else if cfg.skip_dsstore && e.name == ".DS_Store".toList then none
  else if cfg.limit_to_patterns && cfg.patterns.isSome
      && !((cfg.patterns.getD []).contains (pattern_key e.name)) then none
  else
    match e.size with
    | none => none
    | some sz =>
      if cfg.skip_zero_len && decide (sz < 1) then none
      else some sz

/-- Association-list lookup for the size-keyed index, the embedding of
`self.items[file_size]` reads on the target dict. -/
def lookupBucket (m : List (Nat × List (List Char × Nat))) (s : Nat) :
    Option (List (List Char × Nat)) :=
  match m with
  | [] => none
  | (k, b) :: rest => if k == s then some b else lookupBucket rest s

/-- The files a target-mode scan accepts whose size is exactly `s`, in walk
order, each paired with its size — the reference value that the size bucket
for `s` is proved to equal. -/
def targetAccepts (cfg : ScanConfig) (entries : List WalkEntry) (s : Nat) :
    List (List Char × Nat) :=
  entries.filterMap (fun e =>
    match fileAccepted cfg e with
    | some sz => if sz = s then some (joinPath e.root e.name, sz) else none
    | none => none)

/-- Sum of the lengths of all size buckets of a target-mode index. -/
def sumBuckets (m : List (Nat × List (List Char × Nat))) : Nat :=
  (m.map (fun kv => kv.2.length)).sum

/-! ## File comparator (findDuplicates.py, md5_partial_match /
md5_full_match / compare_two_files) -/

/-- A filesystem node as the comparator observes it: a regular file with its
byte contents, or a directory.  A path mapped to `none` does not exist
(`os.path.exists` is false). -/
inductive FsNode where
  | file (content : List Nat)
  | dir
deriving DecidableEq, Repr

/-- Embedding of `md5_partial_match(file_path_a, file_path_b, num_bytes)`
(findDuplicates.py lines 511-543) at the level of file contents: hash the
first `num_bytes` bytes of each file (`f.read(n)` reads at most `n` bytes)
with an abstract digest function `h` standing for `hashlib.md5(...).
hexdigest()`, and compare the two digests. -/
def md5_partial_match {D : Type} [DecidableEq D] (h : List Nat → D)
    (num_bytes : Nat) (fa fb : List Nat) : Bool :=
  decide (h (fa.take num_bytes) = h (fb.take num_bytes))

/-- Embedding of `md5_full_match` (findDuplicates.py lines 547-576): digest
the whole of each file; return the shared digest when they agree (a truthy
value) and `none` for the Python `False`. -/
def md5_full_match {D : Type} [DecidableEq D] (h : List Nat → D)
    (fa fb : List Nat) : Option D :=
  if h fa = h fb then some (h fb) else none

/-- The outcome of `compare_two_files`: a boolean verdict, or the
`lib.display_error` + `sys.exit(1)` abort taken on a missing or directory
argument. -/
inductive CmpResult where
  | ok (matched : Bool)
  | error (msg : String)
deriving DecidableEq, Repr

/-- Embedding of `compare_two_files(file_a, file_b, single_pass)`
(findDuplicates.py lines 711-756).  The four precondition checks run in
source order: `file_a` missing, `file_a` a directory, `file_b` missing,
`file_b` a directory; each failure reports and aborts.  Then either a full
digest comparison alone (`single_pass`) or the 1024-byte partial digest
followed, on a partial match, by the full digest. -/
def compare_two_files {D : Type} [DecidableEq D] (h : List Nat → D)
    (fs : String → Option FsNode) (file_a file_b : String)
    (single_pass : Bool) : CmpResult :=
  match fs file_a with
  | none => CmpResult.error ("file_does_not_exist: " ++ file_a)
  | some FsNode.dir => CmpResult.error ("file_is_dir: " ++ file_a)
  | some (FsNode.file ca) =>
    match fs file_b with
    | none => CmpResult.error ("file_does_not_exist: " ++ file_b)
    | some FsNode.dir => CmpResult.error ("file_is_dir: " ++ file_b)
    | some (FsNode.file cb) =>
      if single_pass then
        CmpResult.ok (md5_full_match h ca cb).isSome
      else if md5_partial_match h 1024 ca cb then
        CmpResult.ok (md5_full_match h ca cb).isSome
      else
        CmpResult.ok false

/-! ## Duplicate matcher (findDuplicates.py, do_compare)

The body of `do_compare` (findDuplicates.py lines 580-707) and its only call
(line 915) are commented out in the source: the live function body is the
single statement `is_symlink = False`.  The definitions below are therefore
modelled from the spec (section 4.3, Duplicate Matcher), whose algorithm
coincides with the commented-out body: per source entry, skip when the roots
coincide and the path was already recorded as a match target; otherwise look
up the same-size target bucket (a missing key yields the empty candidate
list), compare against every candidate except the source path itself,
collect the matches, record matched target paths in the visited set when the
roots coincide, and emit one outcome per non-skipped source entry. -/

/-- One entry of the source index handed to the matcher: absolute path and
byte size. -/
structure SourceEntry where
  path : String
  size : Nat
deriving DecidableEq, Repr

/-- One recorded match of a source file: the matched target path and size. -/
structure MatchRec where
  path : String
  size : Nat
deriving DecidableEq, Repr

/-- Modelled from the spec: the ComparisonOutcome record of spec section 3 —
one per non-skipped source file, with its path, size, duplicate verdict and
ordered match list (the RESULT line of the commented-out log writer).  The
field the spec calls `matches` is named `matchList` because `matches` is a
reserved word in Lean. -/
structure ComparisonOutcome where
  sourcePath : String
  sourceSize : Nat
  isDuplicate : Bool
  matchList : List MatchRec
deriving DecidableEq, Repr

/-- The matcher state: the VisitedSet of target paths already confirmed as
match partners, and the outcomes emitted so far in source order. -/
structure CompareState where
  visited : List String
  outcomes : List ComparisonOutcome
deriving DecidableEq, Repr

/-- Modelled from the spec: the inner candidate loop of the matcher (spec
section 4.3 step 3).  Folding over the same-size candidates: skip the source
path itself; on a comparator match append the candidate to the match list
and, when the roots coincide, record its path in the visited set. -/
def matchFold (sameRoot : Bool) (sourcePath : String)
    (cmp : String → String → Bool) (cands : List (String × Nat))
    (visited0 : List String) : List MatchRec × List String :=
  cands.foldl (fun acc c =>
    if c.1 == sourcePath then acc
    else if cmp sourcePath c.1 then
      (acc.1 ++ [⟨c.1, c.2⟩], if sameRoot then acc.2 ++ [c.1] else acc.2)
    else acc) ([], visited0)

/-- Modelled from the spec: one source entry of the matcher loop (spec
section 4.3 steps 1-4).  `bySize` is the target index lookup, total with the
`KeyError` branch returning the empty bucket. -/
def compareStep (sameRoot : Bool) (bySize : Nat → List (String × Nat))
    (cmp : String → String → Bool) (st : CompareState) (e : SourceEntry) :
    CompareState :=
  if sameRoot && st.visited.contains e.path then st
  else
    let r := matchFold sameRoot e.path cmp (bySize e.size) st.visited
    { visited := r.2,
      outcomes := st.outcomes ++ [⟨e.path, e.size, !r.1.isEmpty, r.1⟩] }

/-- Modelled from the spec: `compare(sourceIndex, targetIndex, comparator,
manyDupesExpected)` of spec section 4.3, the whole matcher run over the
source entries in index order, starting from an empty VisitedSet and no
outcomes.  The comparator argument already carries `manyDupesExpected`. -/
def do_compare (sameRoot : Bool) (sourceEntries : List SourceEntry)
    (bySize : Nat → List (String × Nat)) (cmp : String → String → Bool) :
    CompareState :=
  sourceEntries.foldl (compareStep sameRoot bySize cmp) ⟨[], []⟩

/-! ## Debug collaborator (debug.py, class Debug) -/

/-- The configuration fields of the `Debug` object (debug.py, `__init__`).
`max_count` is `Option`al because the Python default sentinel is `None`. -/
structure Debug where
  do_debug : Bool
  max_count : Option Nat
  exit_on_max_count : Bool
  write_to_file : Bool
  write_to_stderr : Bool
  write_to_stdout : Bool
deriving DecidableEq, Repr

/-- The observable state a `Debug` object threads through calls: the running
message count and the three output channels. -/
structure DebugState where
  count : Nat
  file_lines : List String
  stderr_lines : List String
  stdout_lines : List String
deriving DecidableEq, Repr

/-- Result of one `Debug.debug` call: either the updated state, or process
termination via `sys.exit(0)` (debug.py lines 90-95). -/
inductive DebugStep where
  | next (s : DebugState)
  | exited (code : Nat) (s : DebugState)
deriving DecidableEq, Repr

/-- Embedding of `Debug.debug` (debug.py lines 58-95) for one already
concatenated message: return unchanged when debugging is off; otherwise
append to the file when under the file line limit, append to stderr and
stdout as configured, advance the count, and — when `exit_on_max_count` is
set and the count has reached `max_count` — terminate the whole process with
`sys.exit(0)`. -/
def Debug.debug (cfg : Debug) (s : DebugState) (msg : String) : DebugStep :=
  if !cfg.do_debug then DebugStep.next s
  else
    let writeFile : Bool := cfg.write_to_file &&
      (match cfg.max_count with
       | none => true
       | some m => decide (s.count < m))
    let s1 : DebugState :=
      { count := s.count + 1,
        file_lines := if writeFile then s.file_lines ++ [msg] else s.file_lines,
        stderr_lines :=
          if cfg.write_to_stderr then s.stderr_lines ++ [msg] else s.stderr_lines,
        stdout_lines :=
          if cfg.write_to_stdout then s.stdout_lines ++ [msg] else s.stdout_lines }
    if cfg.exit_on_max_count then
      match cfg.max_count with
      | none => DebugStep.next s1
      | some m => if m ≤ s1.count then DebugStep.exited 0 s1 else DebugStep.next s1
    else DebugStep.next s1

/-- A sequence of `Debug.debug` calls, stopping at the first call that
terminates the process. -/
def debugRun (cfg : Debug) (s : DebugState) : List String → DebugStep
  | [] => DebugStep.next s
  | m :: ms =>
    match Debug.debug cfg s m with
    | DebugStep.next s' => debugRun cfg s' ms
    | DebugStep.exited c s' => DebugStep.exited c s'

/-! ## Concrete inputs used by witnesses -/

/-- A size-bucket lookup with one bucket of two same-size files. -/
def bySizeW : Nat → List (String × Nat) := fun n =>
  if n == 5 then [("x", 5), ("y", 5)] else []

/-- A comparator that reports every pair of files as equal (two files with
identical content). -/
def cmpW : String → String → Bool := fun _ _ => true

/-- Contents agreeing on the first 1024 bytes and differing afterwards. -/
def contentA : List Nat := List.replicate 1024 0 ++ [1]

/-- Contents agreeing on the first 1024 bytes and differing afterwards. -/
def contentB : List Nat := List.replicate 1024 0 ++ [2]

/-- A filesystem with two regular files, one directory, and nothing else. -/
def fsW : String → Option FsNode := fun p =>
  if p = "a" then some (FsNode.file contentA)
  else if p = "b" then some (FsNode.file contentB)
  else if p = "d" then some FsNode.dir
  else none

/-- A target-mode scan configuration with every filter disabled. -/
def cfgT : ScanConfig := ⟨false, false, false, none, false, false⟩

/-- Two same-size target files with distinct paths. -/
def entriesT : List WalkEntry :=
  [⟨"/t".toList, "u.bin".toList, some 5⟩, ⟨"/t".toList, "v.bin".toList, some 5⟩]

/-- A source-mode configuration limiting the scan to the JPG extension. -/
def cfgP5 : ScanConfig := ⟨false, false, true, some ["JPG".toList], false, true⟩

/-- One walk entry carrying a jpg file. -/
def entriesP5 : List WalkEntry := [⟨"/t".toList, "a.jpg".toList, some 5⟩]

/-- A source-mode configuration that skips zero-length files. -/
def cfgZ8 : ScanConfig := ⟨false, false, false, none, true, true⟩

/-- One walk entry with a five-byte file. -/
def entriesZ8 : List WalkEntry := [⟨"/t".toList, "f.bin".toList, some 5⟩]

/-- A debug configuration with debugging on, a line limit of one, and the
exit-on-limit flag clear. -/
def cfgD9 : Debug := ⟨true, some 1, false, false, true, false⟩

/-! ## Helper lemmas -/

/-- Fold invariance: a property preserved by every step of a fold holds of
the fold result. -/
theorem foldl_inv {α σ : Type} (f : σ → α → σ) (Inv : σ → Prop)
    (hstep : ∀ s a, Inv s → Inv (f s a)) (l : List α) :
    ∀ s, Inv s → Inv (l.foldl f s) := by
  induction l with
  | nil => intro s hs; exact hs
  | cons a t ih => intro s hs; exact ih (f s a) (hstep s a hs)

/-- The scan loop body, phrased through the factored accept decision. -/
theorem scan_step_eq (cfg : ScanConfig) (st : ScanState) (e : WalkEntry) :
    scan_step cfg st e =
      match fileAccepted cfg e with
      | none => { st with checked_counter := st.checked_counter + 1 }
      | some sz =>
        if cfg.type_is_source then
          { st with checked_counter := st.checked_counter + 1,
                    actual_counter := st.actual_counter + 1,
                    byPath := dictInsert st.byPath (joinPath e.root e.name) (e.name, sz) }
        else
          { st with checked_counter := st.checked_counter + 1,
                    actual_counter := st.actual_counter + 1,
                    bySize := bucketAppend st.bySize sz (joinPath e.root e.name) } := by
  unfold scan_step fileAccepted
  repeat' split
  all_goals first | rfl | simp_all

/-- Every element of a dict after insertion is the inserted pair or an
element of the old dict. -/
theorem dictInsert_mem (k : List Char) (v : List Char × Nat) :
    ∀ (m : List (List Char × (List Char × Nat))) x,
      x ∈ dictInsert m k v → x = (k, v) ∨ x ∈ m := by
  intro m
  induction m with
  | nil => intro x hx; simp [dictInsert] at hx; left; exact hx
  | cons kv rest ih =>
    intro x hx
    obtain ⟨k', v'⟩ := kv
    unfold dictInsert at hx
    split at hx
    · rcases List.mem_cons.mp hx with h | h
      · left; exact h
      · right; exact List.mem_cons_of_mem _ h
    · rcases List.mem_cons.mp hx with h | h
      · right; exact h ▸ List.mem_cons_self _ _
      · rcases ih x h with h' | h'
        · left; exact h'
        · right; exact List.mem_cons_of_mem _ h'

/-- Every element of a bucket after a bucket append comes from an old bucket
for the same key, or is the appended pair sitting in the bucket of its own
size. -/
theorem bucketAppend_mem_elt (sz : Nat) (p : List Char) :
    ∀ (m : List (Nat × List (List Char × Nat))) (s : Nat)
      (b : List (List Char × Nat)),
      (s, b) ∈ bucketAppend m sz p → ∀ q ∈ b,
        (∃ b0, (s, b0) ∈ m ∧ q ∈ b0) ∨ (q = (p, sz) ∧ s = sz) := by
  intro m
  induction m with
  | nil =>
    intro s b hb q hq
    simp [bucketAppend] at hb
    obtain ⟨hs, hb⟩ := hb
    subst hs; subst hb
    simp at hq
    right; exact ⟨hq, rfl⟩
  | cons kv rest ih =>
    intro s b hb q hq
    obtain ⟨s0, b0⟩ := kv
    unfold bucketAppend at hb
    split at hb
    next heq =>
      have hs0 : s0 = sz := by simpa using heq
      rcases List.mem_cons.mp hb with h | h
      · obtain ⟨h1, h2⟩ := Prod.mk.injEq .. ▸ h
        subst h1
        rcases List.mem_append.mp (h2 ▸ hq) with hq0 | hq1
        · left; exact ⟨b0, List.mem_cons_self _ _, hq0⟩
        · simp at hq1
          right; exact ⟨hq1, hs0⟩
      · left; exact ⟨b, List.mem_cons_of_mem _ h, hq⟩
    next =>
      rcases List.mem_cons.mp hb with h | h
      · obtain ⟨h1, h2⟩ := Prod.mk.injEq .. ▸ h
        subst h1
        left; exact ⟨b0, List.mem_cons_self _ _, h2 ▸ hq⟩
      · rcases ih s b h q hq with ⟨b1, hb1, hq1⟩ | h'
        · left; exact ⟨b1, List.mem_cons_of_mem _ hb1, hq1⟩
        · right; exact h'

/-- Looking up the appended key finds the old bucket (empty when absent)
extended by the appended pair. -/
theorem lookupBucket_bucketAppend_self (sz : Nat) (p : List Char) :
    ∀ m, lookupBucket (bucketAppend m sz p) sz
      = some ((lookupBucket m sz).getD [] ++ [(p, sz)]) := by
  intro m
  induction m with
  | nil => simp [bucketAppend, lookupBucket]
  | cons kv rest ih =>
    obtain ⟨s0, b0⟩ := kv
    by_cases h : s0 = sz
    · subst h
      simp [bucketAppend, lookupBucket]
    · have hb : (s0 == sz) = false := by simp [h]
      simp [bucketAppend, lookupBucket, hb, ih]

/-- Looking up any other key is unchanged by a bucket append. -/
theorem lookupBucket_bucketAppend_other (sz s : Nat) (p : List Char)
    (hne : s ≠ sz) :
    ∀ m, lookupBucket (bucketAppend m sz p) s = lookupBucket m s := by
  intro m
  induction m with
  | nil =>
    have : (sz == s) = false := by simp [Ne.symm hne]
    simp [bucketAppend, lookupBucket, this]
  | cons kv rest ih =>
    obtain ⟨s0, b0⟩ := kv
    by_cases h : s0 = sz
    · subst h
      have : (s0 == s) = false := by simp [Ne.symm hne]
      simp [bucketAppend, lookupBucket, this]
    · have hb : (s0 == sz) = false := by simp [h]
      simp [bucketAppend, lookupBucket, hb, ih]

/-- A bucket append grows the total bucket length by exactly one. -/
theorem sumBuckets_bucketAppend (sz : Nat) (p : List Char) :
    ∀ m, sumBuckets (bucketAppend m sz p) = sumBuckets m + 1 := by
  intro m
  induction m with
  | nil => simp [bucketAppend, sumBuckets]
  | cons kv rest ih =>
    obtain ⟨s0, b0⟩ := kv
    by_cases h : s0 = sz
    · subst h
      simp [bucketAppend, sumBuckets]
      omega
    · have hb : (s0 == sz) = false := by simp [h]
      simp [bucketAppend, sumBuckets, hb] at ih ⊢
      omega

/-- With the zero-length filter active, an accepted file has size at least
one. -/
theorem fileAccepted_ge_one (cfg : ScanConfig) (hz : cfg.skip_zero_len = true)
    (e : WalkEntry) (sz : Nat) (h : fileAccepted cfg e = some sz) : 1 ≤ sz := by
  unfold fileAccepted at h
  repeat' split at h
  all_goals try simp_all
  all_goals omega

/-- With the pattern filter active, an accepted file has its pattern key in
the pattern list. -/
theorem fileAccepted_pattern_mem (cfg : ScanConfig) (P : List (List Char))
    (hl : cfg.limit_to_patterns = true) (hp : cfg.patterns = some P)
    (e : WalkEntry) (sz : Nat) (h : fileAccepted cfg e = some sz) :
    pattern_key e.name ∈ P := by
  unfold fileAccepted at h
  rw [hp] at h
  simp only [hl, Option.isSome_some, Bool.and_true, Bool.true_and,
    Option.getD_some] at h
  repeat' split at h
  all_goals simp_all

/-- With the pattern filter active, a file whose pattern key is not in the
pattern list is rejected. -/
theorem fileAccepted_pattern_none (cfg : ScanConfig) (P : List (List Char))
    (hl : cfg.limit_to_patterns = true) (hp : cfg.patterns = some P)
    (e : WalkEntry) (hne : pattern_key e.name ∉ P) :
    fileAccepted cfg e = none := by
  unfold fileAccepted
  rw [hp]
  simp only [hl, Option.isSome_some, Bool.and_true, Bool.true_and,
    Option.getD_some]
  simp
  intro _ _ hmem
  exact absurd hmem hne

/-! ## Claim theorems -/

/-- C8: for every scan run with skipZeroLength=true, every file accepted
into the index — the path-keyed source index or any size bucket of the
target index — has size at least 1; any file with size less than 1 is
excluded. -/
theorem scanner_skip_zero_len_min_size (cfg : ScanConfig)
    (entries : List WalkEntry) (hz : cfg.skip_zero_len = true) :
    (∀ p nm s, (p, (nm, s)) ∈ (scan cfg entries).byPath → 1 ≤ s)
    ∧ (∀ s b, (s, b) ∈ (scan cfg entries).bySize → ∀ q ∈ b, 1 ≤ q.2) := by
  refine foldl_inv (scan_step cfg)
    (fun st => (∀ p nm s, (p, (nm, s)) ∈ st.byPath → 1 ≤ s)
      ∧ (∀ s b, (s, b) ∈ st.bySize → ∀ q ∈ b, 1 ≤ q.2))
    ?_ entries ⟨0, 0, [], [], []⟩ (by constructor <;> simp)
  intro st e hinv
  obtain ⟨h1, h2⟩ := hinv
  rw [scan_step_eq]
  cases hfa : fileAccepted cfg e with
  | none => exact ⟨h1, h2⟩
  | some sz =>
    have hsz := fileAccepted_ge_one cfg hz e sz hfa
    cases hts : cfg.type_is_source with
    | true =>
      simp only [if_true]
      refine ⟨?_, h2⟩
      intro p nm s hmem
      rcases dictInsert_mem _ _ _ _ hmem with heq | hold
      · simp only [Prod.mk.injEq] at heq
        obtain ⟨-, -, hs⟩ := heq
        exact hs ▸ hsz
      · exact h1 p nm s hold
    | false =>
      simp only [Bool.false_eq_true, if_false]
      refine ⟨h1, ?_⟩
      intro s b hb q hq
      rcases bucketAppend_mem_elt sz _ st.bySize s b hb q hq with
        ⟨b0, hb0, hq0⟩ | ⟨hq', hs'⟩
      · exact h2 s b0 hb0 q hq0
      · rw [hq']
        exact hs' ▸ hsz

/-- C8 witness: a concrete run with the zero-length filter on, applied to a
five-byte file accepted into the source index. -/
theorem scanner_skip_zero_len_min_size_witness :
    cfgZ8.skip_zero_len = true ∧ 1 ≤ 5 :=
  ⟨rfl, (scanner_skip_zero_len_min_size cfgZ8 entriesZ8 rfl).1
    "/t/f.bin".toList "f.bin".toList 5 (by decide)⟩

/-- C10: after a target-mode scan, every entry stored in the bucket keyed by
size s records size exactly s, and the sum of the lengths of all buckets
equals the accepted-file count returned by get_count. -/
theorem scanner_target_wellkeyed_count (cfg : ScanConfig)
    (entries : List WalkEntry) (ht : cfg.type_is_source = false) :
    (∀ s b, (s, b) ∈ (scan cfg entries).bySize → ∀ q ∈ b, q.2 = s)
    ∧ sumBuckets (scan cfg entries).bySize = (scan cfg entries).get_count := by
  refine foldl_inv (scan_step cfg)
    (fun st => (∀ s b, (s, b) ∈ st.bySize → ∀ q ∈ b, q.2 = s)
      ∧ sumBuckets st.bySize = st.actual_counter)
    ?_ entries ⟨0, 0, [], [], []⟩ (by constructor <;> simp [sumBuckets])
  intro st e hinv
  obtain ⟨h1, h2⟩ := hinv
  rw [scan_step_eq]
  cases hfa : fileAccepted cfg e with
  | none => exact ⟨h1, h2⟩
  | some sz =>
    rw [ht]
    simp only [Bool.false_eq_true, if_false]
    constructor
    · intro s b hb q hq
      rcases bucketAppend_mem_elt sz _ st.bySize s b hb q hq with
        ⟨b0, hb0, hq0⟩ | ⟨hq', hs'⟩
      · exact h1 s b0 hb0 q hq0
      · rw [hq', hs']
    · rw [sumBuckets_bucketAppend, h2]

/-- C10 witness: a concrete target-mode run with two five-byte files. -/
theorem scanner_target_wellkeyed_count_witness :
    cfgT.type_is_source = false
    ∧ sumBuckets (scan cfgT entriesT).bySize = (scan cfgT entriesT).get_count :=
  ⟨rfl, (scanner_target_wellkeyed_count cfgT entriesT rfl).2⟩

/-- Characterization of the target-mode fold: a size bucket after the scan
holds what it held before, followed by the accepted files of that size in
walk order, and the bucket exists exactly when one of the two is
nonempty. -/
theorem scan_bySize_lookup (cfg : ScanConfig) (ht : cfg.type_is_source = false) :
    ∀ (entries : List WalkEntry) (st : ScanState) (s : Nat),
      ((lookupBucket (entries.foldl (scan_step cfg) st).bySize s).getD []
          = (lookupBucket st.bySize s).getD [] ++ targetAccepts cfg entries s)
      ∧ ((lookupBucket (entries.foldl (scan_step cfg) st).bySize s = none)
          ↔ (lookupBucket st.bySize s = none ∧ targetAccepts cfg entries s = [])) := by
  intro entries
  induction entries with
  | nil => intro st s; simp [targetAccepts]
  | cons e es ih =>
    intro st s
    rw [List.foldl_cons]
    have hstep := scan_step_eq cfg st e
    cases hfa : fileAccepted cfg e with
    | none =>
      rw [hfa] at hstep
      rw [hstep]
      have htA : targetAccepts cfg (e :: es) s = targetAccepts cfg es s := by
        simp [targetAccepts, List.filterMap_cons, hfa]
      rw [htA]
      simpa using ih { st with checked_counter := st.checked_counter + 1 } s
    | some sz =>
      rw [hfa, ht] at hstep
      simp only [Bool.false_eq_true, if_false] at hstep
      rw [hstep]
      have ihs := ih
        { st with
            checked_counter := st.checked_counter + 1,
            actual_counter := st.actual_counter + 1,
            bySize := bucketAppend st.bySize sz (joinPath e.root e.name) } s
      by_cases hs : sz = s
      · subst hs
        have htA : targetAccepts cfg (e :: es) sz
            = (joinPath e.root e.name, sz) :: targetAccepts cfg es sz := by
          simp [targetAccepts, List.filterMap_cons, hfa]
        constructor
        · rw [ihs.1, htA]
          simp [lookupBucket_bucketAppend_self]
        · rw [ihs.2, htA]
          simp [lookupBucket_bucketAppend_self]
      · have htA : targetAccepts cfg (e :: es) s = targetAccepts cfg es s := by
          simp [targetAccepts, List.filterMap_cons, hfa, hs]
        have hlk := lookupBucket_bucketAppend_other sz s (joinPath e.root e.name)
          (fun hh => hs hh.symm) st.bySize
        constructor
        · rw [ihs.1, htA]
          simp [hlk]
        · rw [ihs.2, htA]
          simp [hlk]

/-- The joined paths of the accepted target files of one size form a
sublist of the joined paths of the whole walk. -/
theorem targetAccepts_paths_sublist (cfg : ScanConfig) (s : Nat) :
    ∀ entries : List WalkEntry,
      List.Sublist ((targetAccepts cfg entries s).map Prod.fst)
        (entries.map (fun e => joinPath e.root e.name)) := by
  intro entries
  induction entries with
  | nil => simp [targetAccepts]
  | cons e es ih =>
    cases hfa : fileAccepted cfg e with
    | none =>
      have htA : targetAccepts cfg (e :: es) s = targetAccepts cfg es s := by
        simp [targetAccepts, List.filterMap_cons, hfa]
      rw [List.map_cons, htA]
      exact List.Sublist.cons _ ih
    | some sz =>
      by_cases hs : sz = s
      · subst hs
        have htA : targetAccepts cfg (e :: es) sz
            = (joinPath e.root e.name, sz) :: targetAccepts cfg es sz := by
          simp [targetAccepts, List.filterMap_cons, hfa]
        rw [List.map_cons, htA, List.map_cons]
        exact List.Sublist.cons₂ _ ih
      · have htA : targetAccepts cfg (e :: es) s = targetAccepts cfg es s := by
          simp [targetAccepts, List.filterMap_cons, hfa, hs]
        rw [List.map_cons, htA]
        exact List.Sublist.cons _ ih

/-- C7: in target-indexed mode every accepted file is appended to the bucket
of its size (the bucket holding exactly the accepted files of that size in
walk order), the bucket exists exactly from the first occurrence of that
size onward, and — when the walk yields pairwise distinct joined paths, as
os.walk does — each path appears at most once within its size bucket. -/
theorem scanner_target_bucket_semantics (cfg : ScanConfig)
    (entries : List WalkEntry) (ht : cfg.type_is_source = false) :
    (∀ s, (lookupBucket (scan cfg entries).bySize s).getD []
        = targetAccepts cfg entries s)
    ∧ (∀ s, lookupBucket (scan cfg entries).bySize s = none
        ↔ targetAccepts cfg entries s = [])
    ∧ ((entries.map (fun e => joinPath e.root e.name)).Nodup →
        ∀ s, (((lookupBucket (scan cfg entries).bySize s).getD []).map
          Prod.fst).Nodup) := by
  have hmain := scan_bySize_lookup cfg ht entries ⟨0, 0, [], [], []⟩
  refine ⟨fun s => ?_, fun s => ?_, fun hnd s => ?_⟩
  · simpa [scan, lookupBucket] using (hmain s).1
  · simpa [scan, lookupBucket] using (hmain s).2
  · have h1 : (lookupBucket (scan cfg entries).bySize s).getD []
        = targetAccepts cfg entries s := by
      simpa [scan, lookupBucket] using (hmain s).1
    rw [h1]
    exact List.Sublist.nodup (targetAccepts_paths_sublist cfg s entries) hnd

/-- C7 witness: a concrete target-mode run with two five-byte files whose
paths are distinct; the size-5 bucket holds both, each path once. -/
theorem scanner_target_bucket_semantics_witness :
    cfgT.type_is_source = false
    ∧ (lookupBucket (scan cfgT entriesT).bySize 5).getD []
        = targetAccepts cfgT entriesT 5
    ∧ (((lookupBucket (scan cfgT entriesT).bySize 5).getD []).map
        Prod.fst).Nodup :=
  ⟨rfl, (scanner_target_bucket_semantics cfgT entriesT rfl).1 5,
    (scanner_target_bucket_semantics cfgT entriesT rfl).2.2 (by decide) 5⟩

/-- C5 (amended): with the pattern filter active and pattern set P, a file
whose computed pattern key is not in P is excluded with no effect beyond the
scanned counter, every file accepted into the path-keyed index has its
pattern key in P, and a file with no extension has the empty pattern key —
hence is excluded exactly when the empty string is not itself in P. -/
theorem scanner_pattern_filter_amended (cfg : ScanConfig)
    (P : List (List Char)) (hl : cfg.limit_to_patterns = true)
    (hp : cfg.patterns = some P) :
    (∀ (st : ScanState) (e : WalkEntry), pattern_key e.name ∉ P →
        scan_step cfg st e = { st with checked_counter := st.checked_counter + 1 })
    ∧ (∀ (entries : List WalkEntry) p nm sz,
        (p, (nm, sz)) ∈ (scan cfg entries).byPath → pattern_key nm ∈ P)
    ∧ (∀ name : List Char, splitext_ext name = [] → pattern_key name = []) := by
  refine ⟨?_, ?_, ?_⟩
  · intro st e hne
    rw [scan_step_eq, fileAccepted_pattern_none cfg P hl hp e hne]
  · intro entries
    refine foldl_inv (scan_step cfg)
      (fun st => ∀ p nm sz, (p, (nm, sz)) ∈ st.byPath → pattern_key nm ∈ P)
      ?_ entries ⟨0, 0, [], [], []⟩ (by simp)
    intro st e hinv
    rw [scan_step_eq]
    cases hfa : fileAccepted cfg e with
    | none => exact hinv
    | some sz =>
      cases hts : cfg.type_is_source with
      | true =>
        simp only [if_true]
        intro p nm s hmem
        rcases dictInsert_mem _ _ _ _ hmem with heq | hold
        · simp only [Prod.mk.injEq] at heq
          obtain ⟨-, hnm, -⟩ := heq
          rw [hnm]
          exact fileAccepted_pattern_mem cfg P hl hp e sz hfa
        · exact hinv p nm s hold
      | false =>
        simp only [Bool.false_eq_true, if_false]
        exact hinv
  · intro name hname
    unfold pattern_key
    rw [hname]
    rfl

/-- C5 counterexample: with the pattern filter active and the empty string
in the pattern set, the extensionless file README is accepted into the
index, although the claim says a file with no extension is always
excluded. -/
theorem scanner_no_extension_counterexample :
    splitext_ext "README".toList = []
    ∧ (scan ⟨true, true, true, some [[]], true, true⟩
        [⟨"/t".toList, "README".toList, some 5⟩]).byPath
      = [("/t/README".toList, ("README".toList, 5))] := by
  decide

/-- C5 witness: a JPG-limited scan accepting a jpg file, whose pattern key
is the pattern JPG. -/
theorem scanner_pattern_filter_amended_witness :
    cfgP5.limit_to_patterns = true ∧ cfgP5.patterns = some ["JPG".toList]
    ∧ pattern_key "a.jpg".toList ∈ ["JPG".toList] :=
  ⟨rfl, rfl,
    (scanner_pattern_filter_amended cfgP5 ["JPG".toList] rfl rfl).2.1 entriesP5
      "/t/a.jpg".toList "a.jpg".toList 5 (by decide)⟩

/-- C6: evaluating the scan at a file whose size cannot be read shows the
file is excluded, the scan continues non-fatally, the scanned counter still
increments while the accepted counter does not — but no error-sink call
occurs: the scan loop never writes the errors log under any configuration
(the source only emits an optional debug message and carries a TODO noting
the errors log is not wired in). -/
theorem scanner_size_error_no_error_sink :
    (scan ⟨false, false, false, none, false, true⟩
        [⟨"/t".toList, "x".toList, none⟩])
      = ⟨1, 0, [], [], []⟩
    ∧ ∀ (cfg : ScanConfig) (entries : List WalkEntry),
        (scan cfg entries).errors_log = [] := by
  constructor
  · decide
  · intro cfg entries
    refine foldl_inv (scan_step cfg) (fun st => st.errors_log = [])
      ?_ entries ⟨0, 0, [], [], []⟩ rfl
    intro st e hst
    rw [scan_step_eq]
    cases fileAccepted cfg e with
    | none => exact hst
    | some sz =>
      cases hts : cfg.type_is_source with
      | true => simp only [if_true]; exact hst
      | false => simp only [Bool.false_eq_true, if_false]; exact hst

/-- C3: for every pair of existing regular files, compare_two_files reports
a match exactly when the full byte contents are identical, for both values
of single_pass (a collision-free digest stands for md5); in particular, for
files agreeing on the first 1024 bytes and differing afterwards, the fast
path returns the same verdict as the full comparison. -/
theorem comparator_verdict_iff_identical_bytes {D : Type} [DecidableEq D]
    (h : List Nat → D) (hinj : Function.Injective h)
    (fs : String → Option FsNode) (a b : String) (ca cb : List Nat)
    (ha : fs a = some (FsNode.file ca)) (hb : fs b = some (FsNode.file cb)) :
    (∀ sp : Bool,
      compare_two_files h fs a b sp = CmpResult.ok (decide (ca = cb)))
    ∧ compare_two_files h fs a b false = compare_two_files h fs a b true := by
  have hfull : (md5_full_match h ca cb).isSome = decide (ca = cb) := by
    unfold md5_full_match
    by_cases hc : ca = cb
    · simp [hc]
    · have hh : ¬(h ca = h cb) := fun hh => hc (hinj hh)
      simp [hc, hh]
  have hmain : ∀ sp : Bool,
      compare_two_files h fs a b sp = CmpResult.ok (decide (ca = cb)) := by
    intro sp
    unfold compare_two_files
    rw [ha, hb]
    cases sp with
    | true => simp [hfull]
    | false =>
      by_cases hp : md5_partial_match h 1024 ca cb = true
      · simp [hp, hfull]
      · have hne : ca ≠ cb := by
          intro heq
          apply hp
          unfold md5_partial_match
          rw [heq]
          simp
        simp [hp, hne]
  exact ⟨hmain, by rw [hmain false, hmain true]⟩

/-- C3 witness: two concrete files agreeing on their first 1024 bytes and
differing afterwards; the fast path reports the full-content verdict. -/
theorem comparator_verdict_iff_identical_bytes_witness :
    compare_two_files (fun l : List Nat => l) fsW "a" "b" false
      = CmpResult.ok (decide (contentA = contentB)) :=
  (comparator_verdict_iff_identical_bytes (fun l : List Nat => l)
    (fun _ _ hh => hh) fsW "a" "b" contentA contentB rfl rfl).1 false

/-- C4: when either compared path does not exist or is a directory at call
time, compare_two_files reports an error and aborts; it never returns a
boolean verdict for such inputs, in particular never a silent false. -/
theorem comparator_bad_path_aborts {D : Type} [DecidableEq D]
    (h : List Nat → D) (fs : String → Option FsNode) (a b : String)
    (sp : Bool)
    (hbad : fs a = none ∨ fs a = some FsNode.dir
      ∨ fs b = none ∨ fs b = some FsNode.dir) :
    (∃ msg, compare_two_files h fs a b sp = CmpResult.error msg)
    ∧ ∀ r : Bool, compare_two_files h fs a b sp ≠ CmpResult.ok r := by
  have key : ∃ msg, compare_two_files h fs a b sp = CmpResult.error msg := by
    unfold compare_two_files
    rcases hbad with hA | hA | hB | hB
    · rw [hA]; exact ⟨_, rfl⟩
    · rw [hA]; exact ⟨_, rfl⟩
    · cases hfa : fs a with
      | none => exact ⟨_, rfl⟩
      | some n =>
        cases n with
        | file ca => rw [hB]; exact ⟨_, rfl⟩
        | dir => exact ⟨_, rfl⟩
    · cases hfa : fs a with
      | none => exact ⟨_, rfl⟩
      | some n =>
        cases n with
        | file ca => rw [hB]; exact ⟨_, rfl⟩
        | dir => exact ⟨_, rfl⟩
  refine ⟨key, ?_⟩
  rcases key with ⟨m, hm⟩
  intro r hr
  rw [hm] at hr
  exact CmpResult.noConfusion hr

/-- C4 witness: comparing a missing path aborts with an error. -/
theorem comparator_bad_path_aborts_witness :
    ∃ msg, compare_two_files (fun l : List Nat => l) fsW "missing" "b" false
      = CmpResult.error msg :=
  (comparator_bad_path_aborts (fun l : List Nat => l) fsW "missing" "b" false
    (Or.inl rfl)).1

/-- C9 counterexample: a debug call with exit_on_max_count set and the count
reaching max_count terminates the whole application with sys.exit(0), so
the debug collaborator is not exit-free under every configuration. -/
theorem debug_exit_on_limit_counterexample :
    Debug.debug ⟨true, some 1, true, false, true, false⟩ ⟨0, [], [], []⟩ "m"
      = DebugStep.exited 0 ⟨1, [], ["m"], []⟩ := by
  rfl

/-- C9 (amended): a debug call terminates the process only when
exit_on_max_count is set and the running count reaches max_count; with the
flag clear (its default), no sequence of debug calls ever exits. -/
theorem debug_no_exit_when_flag_clear (cfg : Debug)
    (hc : cfg.exit_on_max_count = false) (s : DebugState)
    (msgs : List String) :
    ∃ s', debugRun cfg s msgs = DebugStep.next s' := by
  induction msgs generalizing s with
  | nil => exact ⟨s, rfl⟩
  | cons m ms ih =>
    have hstep : ∃ s1, Debug.debug cfg s m = DebugStep.next s1 := by
      cases hd : cfg.do_debug with
      | false => exact ⟨s, by unfold Debug.debug; rw [hd]; rfl⟩
      | true => exact ⟨_, by unfold Debug.debug; rw [hd, hc]; rfl⟩
    rcases hstep with ⟨s1, hs1⟩
    rcases ih s1 with ⟨s2, hs2⟩
    refine ⟨s2, ?_⟩
    unfold debugRun
    rw [hs1]
    exact hs2

/-- C9 witness: two debug calls with the exit flag clear and a file line
limit of one complete without terminating. -/
theorem debug_no_exit_when_flag_clear_witness :
    cfgD9.exit_on_max_count = false
    ∧ ∃ s', debugRun cfgD9 ⟨0, [], [], []⟩ ["a", "b"] = DebugStep.next s' :=
  ⟨rfl, debug_no_exit_when_flag_clear cfgD9 rfl ⟨0, [], [], []⟩ ["a", "b"]⟩

/-- With distinct roots the matcher never skips: every source entry appends
exactly one outcome carrying its path, in iteration order. -/
theorem compare_foldl_outcomes_diff_root (bySize : Nat → List (String × Nat))
    (cmp : String → String → Bool) :
    ∀ (entries : List SourceEntry) (st : CompareState),
      ((entries.foldl (compareStep false bySize cmp) st).outcomes.map
          ComparisonOutcome.sourcePath)
        = st.outcomes.map ComparisonOutcome.sourcePath
          ++ entries.map SourceEntry.path := by
  intro entries
  induction entries with
  | nil => intro st; simp
  | cons e es ih =>
    intro st
    rw [List.foldl_cons, ih]
    have hstep : (compareStep false bySize cmp st e).outcomes
        = st.outcomes ++ [⟨e.path, e.size,
            !(matchFold false e.path cmp (bySize e.size) st.visited).1.isEmpty,
            (matchFold false e.path cmp (bySize e.size) st.visited).1⟩] := by
      unfold compareStep
      simp
    rw [hstep]
    simp

/-- C1 (amended): when the two indices have different root paths, compare
emits exactly one ComparisonOutcome per entry of the source index, in
source iteration order, even for entries whose match list is empty; when
the roots coincide, entries already in the VisitedSet emit no outcome. -/
theorem matcher_one_outcome_per_entry_diff_root
    (entries : List SourceEntry) (bySize : Nat → List (String × Nat))
    (cmp : String → String → Bool) :
    (do_compare false entries bySize cmp).outcomes.map
        ComparisonOutcome.sourcePath
      = entries.map SourceEntry.path := by
  unfold do_compare
  rw [compare_foldl_outcomes_diff_root]
  simp

/-- C1 counterexample: with equal roots and two source entries of identical
content, the run emits a single outcome, not one outcome per entry of the
source index. -/
theorem matcher_outcome_count_counterexample :
    (do_compare true [⟨"x", 5⟩, ⟨"y", 5⟩] bySizeW cmpW).outcomes.length
      ≠ [(⟨"x", 5⟩ : SourceEntry), ⟨"y", 5⟩].length := by
  decide

/-- C2: with equal roots, for two distinct source files of identical content
(the comparator reports them equal and they share one size bucket), the
matcher emits exactly one outcome reporting the pair as duplicates; the
matched target path is added to the VisitedSet, and any source entry whose
path is in the VisitedSet is skipped entirely with no outcome emitted. -/
theorem matcher_symmetric_suppression (A B : SourceEntry)
    (bySize : Nat → List (String × Nat)) (cmp : String → String → Bool)
    (hne : A.path ≠ B.path) (_hsz : A.size = B.size)
    (hbucket : bySize A.size = [(A.path, A.size), (B.path, B.size)])
    (hmatch : cmp A.path B.path = true) :
    ((do_compare true [A, B] bySize cmp).outcomes
        = [⟨A.path, A.size, true, [⟨B.path, B.size⟩]⟩]
      ∧ B.path ∈ (do_compare true [A, B] bySize cmp).visited)
    ∧ ∀ (st : CompareState) (e : SourceEntry), e.path ∈ st.visited →
        compareStep true bySize cmp st e = st := by
  have hskip : ∀ (st : CompareState) (e : SourceEntry), e.path ∈ st.visited →
      compareStep true bySize cmp st e = st := by
    intro st e he
    have hcont : st.visited.contains e.path = true :=
      List.elem_eq_true_of_mem he
    unfold compareStep
    rw [hcont]
    rfl
  have hAA : (A.path == A.path) = true := by simp
  have hBA : (B.path == A.path) = false := by simp [Ne.symm hne]
  have hA : compareStep true bySize cmp ⟨[], []⟩ A
      = ⟨[B.path], [⟨A.path, A.size, true, [⟨B.path, B.size⟩]⟩]⟩ := by
    unfold compareStep matchFold
    rw [hbucket]
    simp [hAA, hBA, hmatch, Ne.symm hne]
  have hB : compareStep true bySize cmp
      ⟨[B.path], [⟨A.path, A.size, true, [⟨B.path, B.size⟩]⟩]⟩ B
      = ⟨[B.path], [⟨A.path, A.size, true, [⟨B.path, B.size⟩]⟩]⟩ :=
    hskip _ B (by simp)
  have hdo : do_compare true [A, B] bySize cmp
      = ⟨[B.path], [⟨A.path, A.size, true, [⟨B.path, B.size⟩]⟩]⟩ := by
    unfold do_compare
    rw [List.foldl_cons, hA, List.foldl_cons, hB, List.foldl_nil]
  refine ⟨⟨?_, ?_⟩, hskip⟩
  · rw [hdo]
  · rw [hdo]; simp

/-- C2 witness: a concrete run on one directory holding the two identical
files x and y emits the single outcome pairing them. -/
theorem matcher_symmetric_suppression_witness :
    ("x" : String) ≠ "y"
    ∧ (do_compare true [⟨"x", 5⟩, ⟨"y", 5⟩] bySizeW cmpW).outcomes
        = [⟨"x", 5, true, [⟨"y", 5⟩]⟩] :=
  ⟨by decide,
    ((matcher_symmetric_suppression ⟨"x", 5⟩ ⟨"y", 5⟩ bySizeW cmpW
      (by decide) rfl rfl rfl).1).1⟩

end FindDup
